import Mathlib

/-!
Shallow embedding of `autocnet/transformation/transformations.py`.

The module defines a versioned 3x3 transformation-matrix object
(`TransformationMatrix`, a numpy ndarray subclass carrying an inlier mask,
attached correspondences, a bounded history deque with a cursor, cached
derived attributes and an observer registry) and two concrete classes,
`FundamentalMatrix` and `Homography`.

Numeric external collaborators (cv2's robust estimators, numpy's SVD,
scipy's least squares, and the `autocnet.utils` / `autocnet.camera` helpers
that are not part of the translated source) are supplied as explicit
parameters (`Kernel`, `FMEstimate`, `HEstimate`, `normv`), matching the
spec's description of them as external black boxes.  Matrix entries are
modelled as rationals.
-/

set_option maxHeartbeats 4000000

attribute [local semireducible] Rat.add Rat.mul Rat.inv Rat.sub

/-- A homogeneous 3-vector of rational coordinates. -/
def Vec3 : Type := Fin 3 → ℚ

instance : DecidableEq Vec3 := by
  unfold Vec3
  infer_instance

/-- A 3x3 rational matrix, the value type of a transformation matrix. -/
def Mat : Type := Matrix (Fin 3) (Fin 3) ℚ

instance : DecidableEq Mat := by
  unfold Mat
  infer_instance

instance : One Mat := by
  unfold Mat
  infer_instance

instance : Zero Mat := by
  unfold Mat
  infer_instance

instance : Mul Mat := by
  unfold Mat
  infer_instance

/-- A 3x4 rational matrix (a camera projection matrix). -/
def Mat34 : Type := Matrix (Fin 3) (Fin 4) ℚ

/-- Dot product of two 3-vectors (row-wise `np.sum(l * x, axis=1)`). -/
def dotv (a b : Vec3) : ℚ := a 0 * b 0 + a 1 * b 1 + a 2 * b 2

/-- The product `x.dot(M.T)` of a row vector with a transposed matrix:
component `j` is the dot product of `x` with row `j` of `M`. -/
def xdotMT (x : Vec3) (M : Mat) : Vec3 :=
  fun j => x 0 * M j 0 + x 1 * M j 1 + x 2 * M j 2

/-- Determinant of a 3x3 matrix, written out (embeds `np.linalg.det`). -/
def det3 (M : Mat) : ℚ :=
  M 0 0 * (M 1 1 * M 2 2 - M 1 2 * M 2 1)
    - M 0 1 * (M 1 0 * M 2 2 - M 1 2 * M 2 0)
    + M 0 2 * (M 1 0 * M 2 1 - M 1 1 * M 2 0)

/-- Whether some 2x2 minor of a 3x3 matrix is nonzero. -/
def hasNonzeroMinor (M : Mat) : Bool :=
  decide (∃ i₁ : Fin 3, ∃ i₂ : Fin 3, ∃ j₁ : Fin 3, ∃ j₂ : Fin 3,
    M i₁ j₁ * M i₂ j₂ - M i₁ j₂ * M i₂ j₁ ≠ 0)

/-- Whether some entry of a 3x3 matrix is nonzero. -/
def hasNonzeroEntry (M : Mat) : Bool :=
  decide (∃ i : Fin 3, ∃ j : Fin 3, M i j ≠ 0)

/-- Rank of a 3x3 rational matrix (embeds the `rank` property,
`np.linalg.matrix_rank`, in exact arithmetic): 3 iff the determinant is
nonzero, 2 iff some 2x2 minor is nonzero, 1 iff some entry is nonzero. -/
def rank3 (M : Mat) : ℕ :=
  if det3 M ≠ 0 then 3
  else if hasNonzeroMinor M then 2
  else if hasNonzeroEntry M then 1
  else 0

/-- One history entry: the `state_package` dict `{'arr': ..., 'mask': ...}`.
The mask slot holds `None` (here `none`) in the construction-time snapshot. -/
structure StatePackage where
  arr : Mat
  mask : Option (List Bool)
deriving DecidableEq

/-- The state carried by a `TransformationMatrix` instance (an ndarray
subclass): the 3x3 matrix value, the pandas index (modelled by its length),
the inlier mask (`none` models Python `None`), the attached correspondences
`x1`/`x2` (empty until `compute` sets them; the element type differs between
the two concrete classes), the history deque with its cursor, and the cached
derived attributes `_condition`, `_determinant`, `_error` (`none` models an
absent attribute). -/
structure TransformationMatrix (α : Type) where
  matrix : Mat
  index : ℕ
  mask : Option (List Bool)
  x1 : List α
  x2 : List α
  actionStack : List StatePackage
  currentActionStack : ℕ
  condCache : Option ℚ
  detCache : Option ℚ
  errCache : Option (List ℚ)
deriving DecidableEq

/-- State of a `FundamentalMatrix`: correspondences are stored as
homogeneous 3-vectors (`compute_error` consumes n,3 dataframes). -/
abbrev FMState := TransformationMatrix Vec3

/-- State of a `Homography`: correspondences are raw (n,2) arrays. -/
abbrev HState := TransformationMatrix (ℚ × ℚ)

/-- The two concrete subclasses of `TransformationMatrix`; method resolution
(for `_clean_attrs`) depends on which class an instance belongs to. -/
inductive MatrixClass
  | fundamentalMatrix
  | homography
deriving DecidableEq

/-- Whether `_clean_attrs` resolves on an instance of the class: it is
defined on `FundamentalMatrix` only, not on `Homography` nor on the
`TransformationMatrix` base class. -/
def hasCleanAttrs : MatrixClass → Bool
  | .fundamentalMatrix => true
  | .homography => false

/-- Embeds `TransformationMatrix.__new__`: wraps the raw 3x3 array, sets the
mask to an all-true series over the index, initializes the history deque
(`maxlen=10`) with a single snapshot whose mask slot is `None`, and sets the
cursor to 0.  `x1`/`x2` and the cached attributes are initially absent. -/
def TransformationMatrix.new (α : Type) (ndarray : Mat) (index : ℕ) :
    TransformationMatrix α :=
  { matrix := ndarray
    index := index
    mask := some (List.replicate index true)
    x1 := []
    x2 := []
    actionStack := [⟨ndarray, none⟩]
    currentActionStack := 0
    condCache := none
    detCache := none
    errCache := none }

/-- Embeds `FundamentalMatrix._clean_attrs`: deletes the cached attributes
`_error`, `_determinant` and `_condition` (absent attributes are ignored).
Generic in the payload because it acts only on the shared fields. -/
def FundamentalMatrix.clean_attrs {α : Type} (s : TransformationMatrix α) :
    TransformationMatrix α :=
  { s with condCache := none, detCache := none, errCache := none }

/-- Appending to a `collections.deque` with `maxlen=10`: when the deque is
full the oldest (leftmost) entry is evicted. -/
def dequeAppend (stack : List StatePackage) (p : StatePackage) :
    List StatePackage :=
  let s := stack ++ [p]
  if 10 < s.length then s.drop (s.length - 10) else s

/-- Result of a base-class `rollback`/`rollforward` call: the object state
when the call terminates (normally or by raising `AttributeError` at the
`self._clean_attrs()` line), whether `AttributeError` was raised, and whether
`_notify_subscribers` ran. -/
structure RollbackResult (α : Type) where
  state : TransformationMatrix α
  attrError : Bool
  notified : Bool
deriving DecidableEq

/-- Embeds `TransformationMatrix.rollback(n)`: the cursor moves back by `n`,
clamped at 0 (Python computes `idx = cursor - n` and resets negative values
to 0; natural subtraction does the same); the live matrix and mask are
overwritten from the snapshot at the new cursor; then `self._clean_attrs()`
runs — it resolves only on `FundamentalMatrix`, so on a `Homography` an
`AttributeError` is raised after the state was already mutated and
`_notify_subscribers` never runs. -/
def TransformationMatrix.rollback {α : Type} (cls : MatrixClass)
    (s : TransformationMatrix α) (n : ℕ) : RollbackResult α :=
  let idx := s.currentActionStack - n
  let state := s.actionStack.getD idx ⟨s.matrix, none⟩
  let s₁ := { s with currentActionStack := idx
                     matrix := state.arr
                     mask := state.mask }
  if hasCleanAttrs cls then
    ⟨FundamentalMatrix.clean_attrs s₁, false, true⟩
  else
    ⟨s₁, true, false⟩

/-- Embeds `TransformationMatrix.rollforward(n)`: the cursor moves forward by
`n`, clamped at `len(stack) - 1`; the rest is as in `rollback`, including the
`self._clean_attrs()` resolution failure on `Homography`. -/
def TransformationMatrix.rollforward {α : Type} (cls : MatrixClass)
    (s : TransformationMatrix α) (n : ℕ) : RollbackResult α :=
  let idx₀ := s.currentActionStack + n
  let idx := if s.actionStack.length - 1 < idx₀ then s.actionStack.length - 1
             else idx₀
  let state := s.actionStack.getD idx ⟨s.matrix, none⟩
  let s₁ := { s with currentActionStack := idx
                     matrix := state.arr
                     mask := state.mask }
  if hasCleanAttrs cls then
    ⟨FundamentalMatrix.clean_attrs s₁, false, true⟩
  else
    ⟨s₁, true, false⟩

/-- Rollback on a `FundamentalMatrix` instance: `_clean_attrs` resolves, the
call completes and returns the updated object. -/
def FundamentalMatrix.rollback (s : FMState) (n : ℕ) : FMState :=
  (TransformationMatrix.rollback .fundamentalMatrix s n).state

/-- Rollforward on a `FundamentalMatrix` instance. -/
def FundamentalMatrix.rollforward (s : FMState) (n : ℕ) : FMState :=
  (TransformationMatrix.rollforward .fundamentalMatrix s n).state

/-- The external Numerical Kernel and repository helpers outside the
translated source, taken as explicit parameters: `svdVals` returns the
singular values in descending order (`np.linalg.svd(..., compute_uv=False)`),
`svdEnforce` is the SVD reconstruction `U.dot(diag(d0, d1, 0)).dot(Vt)` used
by `_enforce_singularity_constraint`, `normv` is
`autocnet.utils.utils.normalize_vector` applied to one epipolar-line vector,
`estimated_camera_from_f` is `autocnet.camera.camera.estimated_camera_from_f`
and `least_squares_camera` is the reshaped result of
`scipy.optimize.least_squares` run from `p1` on the masked points (against
the idealized camera). -/
structure Kernel where
  svdVals : Mat → ℚ × ℚ × ℚ
  svdEnforce : Mat → Mat
  normv : Vec3 → Vec3
  estimated_camera_from_f : Mat → Mat34
  least_squares_camera : Mat34 → List Vec3 → List Vec3 → Mat34

/-- Embeds `TransformationMatrix.condition`:
`if not getattr(self, '_condition', None)` recomputes (an absent, `None` or
zero cached value is falsy), setting `_condition = s[0] / s[1]` from the SVD
of the matrix; the cached value is returned otherwise.  Returns the value and
the post-call object. -/
def TransformationMatrix.condition {α : Type} (K : Kernel)
    (s : TransformationMatrix α) : ℚ × TransformationMatrix α :=
  if s.condCache.getD 0 = 0 then
    let sv := K.svdVals s.matrix
    let c := sv.1 / sv.2.1
    (c, { s with condCache := some c })
  else
    (s.condCache.getD 0, s)

/-- Absolute value on rationals, written out (`np.abs`). -/
def absQ (q : ℚ) : ℚ := if 0 ≤ q then q else -q

/-- Embeds `FundamentalMatrix.compute_error(x, x1)`: per point, the epipolar
line vector `x.dot(self.T)` is normalized by the external `normalize_vector`
and the error is `np.abs(np.sum(l_norms * x1, axis=1))`. -/
def FundamentalMatrix.compute_error (normv : Vec3 → Vec3) (M : Mat)
    (x x1 : List Vec3) : List ℚ :=
  let l_norms := x.map (fun xi => normv (xdotMT xi M))
  (l_norms.zip x1).map (fun p => absQ (dotv p.1 p.2))

/-- Embeds `FundamentalMatrix.refine_matches(threshold)`: a snapshot of the
current matrix and mask is packaged, the error is recomputed over all
attached correspondences, the mask becomes `error <= threshold`, the snapshot
is appended to the history deque, the cursor is set to the last index, and
the cached attributes are cleared (then observers are notified).  A `None`
mask would make Python raise at `self.mask.copy()` before mutating anything;
states with attached correspondences carry a `some` mask. -/
def FundamentalMatrix.refine_matches (normv : Vec3 → Vec3) (s : FMState)
    (threshold : ℚ) : FMState :=
  let state_package : StatePackage := ⟨s.matrix, s.mask⟩
  let error := FundamentalMatrix.compute_error normv s.matrix s.x1 s.x2
  let mask := error.map (fun e => decide (e ≤ threshold))
  let stack := dequeAppend s.actionStack state_package
  FundamentalMatrix.clean_attrs
    { s with mask := some mask
             actionStack := stack
             currentActionStack := stack.length - 1 }

/-- Embeds `FundamentalMatrix._enforce_singularity_constraint`: when the rank
is not 2, replace the matrix with the SVD reconstruction in which the third
singular value is zeroed. -/
def FundamentalMatrix.enforce_singularity_constraint (K : Kernel) (M : Mat) :
    Mat :=
  if rank3 M ≠ 2 then K.svdEnforce M else M

/-- Modelled from the spec: `crossform` (from `autocnet.camera.utils`, not
under src/) builds the skew-symmetric cross-product matrix of a 3-vector,
used to reconstruct `F = crossform(t).dot(R)` from the optimized camera. -/
def crossform (t : Vec3) : Mat :=
  Matrix.of ![![0, -t 2, t 1], ![t 2, 0, -t 0], ![-t 1, t 0, 0]]

/-- The last column `p[:, 3]` of a 3x4 camera matrix. -/
def camCol3 (p : Mat34) : Vec3 := fun i => p i 3

/-- The left 3x3 block `p[:, :3]` of a 3x4 camera matrix. -/
def camLeft (p : Mat34) : Mat := Matrix.of fun i j => p i (Fin.castSucc j)

/-- Selection by a boolean mask (`x[mask]`, `.loc[mask]`). -/
def maskSelect {α : Type} (l : List α) (m : List Bool) : List α :=
  ((l.zip m).filter (fun p => p.2)).map (fun p => p.1)

/-- What `cv2.findFundamentalMat` returned for the call at hand: the matrix
`F`, whether it is a single 3x3 matrix assignable into the object (`false`
models the 7-point fallback returning three stacked matrices, which makes
`self[:] = F` fail), and the inlier mask (`none` models a `None` mask, whose
`astype` call fails). -/
structure FMEstimate where
  F : Mat
  singleF : Bool
  mask : Option (List Bool)
deriving DecidableEq

/-- How `FundamentalMatrix.compute` terminated: normally; by raising
`ValueError` on an unknown method; by the silent `return` after
`mask.astype(bool)` fails; by the warning return after `self[:] = F` fails
(three 7-point matrices); or by the warning return when fewer than 9 inliers
are available for MLE refinement. -/
inductive FMOutcome
  | ok
  | invalidMethod
  | degenerate
  | multiF
  | insufficientMLE
deriving DecidableEq

/-- The method dispatch at the top of `FundamentalMatrix.compute`: the elif
chain maps the five documented strings to cv2 flags (`mle` also uses
`cv2.FM_RANSAC` for the initial estimate) and raises `ValueError` otherwise.
The result is `none` exactly on the raising branch; the flag value itself is
consumed by the external estimator. -/
def FundamentalMatrix.methodFlag (method : String) : Option ℕ :=
  if method = "mle" then some 8
  else if method = "ransac" then some 8
  else if method = "lmeds" then some 4
  else if method = "normal" then some 1
  else if method = "8point" then some 2
  else none

/-- Embeds `FundamentalMatrix.compute(kp1, kp2, method, ...)` line by line:
method dispatch (raise on unknown method, nothing mutated); the external
estimator's mask is cast (`None` aborts silently); the singularity constraint
is enforced on `self` — the matrix value the object held on entry, since
`self[:] = F` has not run yet; `x1`, `x2` and `mask` are set; `F` is assigned
(the three-matrix 7-point fallback warns and returns); and for `'mle'` the
camera is refined by least squares over the masked points, requiring at least
9 inliers in each view, else a warning return leaves the matrix as assigned. -/
def FundamentalMatrix.compute (K : Kernel) (est : FMEstimate) (s : FMState)
    (kp1 kp2 : List Vec3) (method : String) : FMState × FMOutcome :=
  match FundamentalMatrix.methodFlag method with
  | none => (s, .invalidMethod)
  | some _ =>
    match est.mask with
    | none => (s, .degenerate)
    | some mask =>
      let s₁ := { s with
        matrix := FundamentalMatrix.enforce_singularity_constraint K s.matrix }
      let s₂ := { s₁ with x1 := kp1, x2 := kp2, mask := some mask }
      if est.singleF = false then
        (s₂, .multiF)
      else
        let s₃ := { s₂ with matrix := est.F }
        if method = "mle" then
          let p1 := K.estimated_camera_from_f est.F
          let pt := maskSelect s₃.x1 mask
          let pt1 := maskSelect s₃.x2 mask
          if pt.length < 9 ∨ pt1.length < 9 then
            (s₃, .insufficientMLE)
          else
            let gold_standard_p := K.least_squares_camera p1 pt pt1
            let gold_standard_f :=
              crossform (camCol3 gold_standard_p) * camLeft gold_standard_p
            ({ s₃ with matrix := gold_standard_f }, .ok)
        else
          (s₃, .ok)

/-- What `cv2.findHomography` returned for the call at hand. -/
structure HEstimate where
  H : Mat
  mask : Option (List Bool)
deriving DecidableEq

/-- How `Homography.compute` terminated. -/
inductive HOutcome
  | ok
  | invalidMethod
deriving DecidableEq

/-- The method dispatch of `Homography.compute`: `ransac`, `lmeds` and
`normal` map to cv2 flags; anything else raises `ValueError`. -/
def Homography.methodFlag (method : String) : Option ℕ :=
  if method = "ransac" then some 8
  else if method = "lmeds" then some 4
  else if method = "normal" then some 0
  else none

/-- Embeds `Homography.compute(kp1, kp2, method, reproj_threshold)`: the
correspondence attributes `x1` and `x2` are assigned from the inputs first,
then the method string is validated (raising `ValueError` on an unknown
method, with `x1`/`x2` already overwritten), then the external estimator's
matrix and mask are stored (`None` masks are stored as such).  No history
entry is ever appended. -/
def Homography.compute (est : HEstimate) (s : HState)
    (kp1 kp2 : List (ℚ × ℚ)) (method : String) : HState × HOutcome :=
  let s₁ := { s with x1 := kp1, x2 := kp2 }
  match Homography.methodFlag method with
  | none => (s₁, .invalidMethod)
  | some _ =>
    (({ s₁ with mask := est.mask, matrix := est.H }), .ok)

/-- Modelled from the spec: `make_homogeneous` (from `autocnet.utils.utils`,
not under src/) promotes a 2D point to homogeneous coordinates by appending
a 1. -/
def make_homogeneous (p : ℚ × ℚ) : Vec3 := ![p.1, p.2, 1]

/-- The in-place transformation loop of `Homography.compute_error`:
`a[i] = self.dot(j); a[i] /= a[i][-1]` — apply the homography and divide by
the homogeneous coordinate. -/
def Homography.transformPoint (H : Mat) (v : Vec3) : Vec3 :=
  let w : Vec3 := fun i => dotv (fun j => H i j) v
  fun i => w i / w 2

/-- The per-point residual pairs `(x_res, y_res)` of
`Homography.compute_error(a, b, mask)`: rows are restricted to the mask (an
omitted mask means an all-true series over the object's index), promoted to
homogeneous coordinates, `a` is transformed by the homography with a
perspective divide, and the residuals are `b[:, 0] - a[:, 0]` and
`b[:, 1] - a[:, 1]`. -/
def Homography.residualPairs (H : Mat) (a b : List (ℚ × ℚ)) (index : ℕ)
    (mask : Option (List Bool)) : List (ℚ × ℚ) :=
  let m := mask.getD (List.replicate index true)
  let ah := (maskSelect a m).map make_homogeneous
  let bh := (maskSelect b m).map make_homogeneous
  let at' := ah.map (Homography.transformPoint H)
  (at'.zip bh).map (fun p => (p.2 0 - p.1 0, p.2 1 - p.1 1))

/-- Mean of a list of rationals (`np.mean`); the empty mean is 0/0 = 0 in
rational arithmetic. -/
def listMean (l : List ℚ) : ℚ := l.sum / (l.length : ℚ)

/-- Embeds `total_rms = np.sqrt(np.mean(x_res**2 + y_res**2))`. -/
noncomputable def Homography.total_rms (H : Mat) (a b : List (ℚ × ℚ))
    (index : ℕ) (mask : Option (List Bool)) : ℝ :=
  Real.sqrt ((listMean ((Homography.residualPairs H a b index mask).map
    (fun r => r.1 ^ 2 + r.2 ^ 2)) : ℚ) : ℝ)

/-- Embeds `x_rms = np.sqrt(np.mean(x_res**2))`. -/
noncomputable def Homography.x_rms (H : Mat) (a b : List (ℚ × ℚ))
    (index : ℕ) (mask : Option (List Bool)) : ℝ :=
  Real.sqrt ((listMean ((Homography.residualPairs H a b index mask).map
    (fun r => r.1 ^ 2)) : ℚ) : ℝ)

/-- Embeds `y_rms = np.sqrt(np.mean(y_res**2))`. -/
noncomputable def Homography.y_rms (H : Mat) (a b : List (ℚ × ℚ))
    (index : ℕ) (mask : Option (List Bool)) : ℝ :=
  Real.sqrt ((listMean ((Homography.residualPairs H a b index mask).map
    (fun r => r.2 ^ 2)) : ℚ) : ℝ)

/-- One public operation on a `FundamentalMatrix` instance, for reasoning
about operation sequences: a `refine_matches` call, a history navigation, or
a `compute` call (whose external-estimator outputs ride along with the
operation). -/
inductive FMOp
  | refine (normv : Vec3 → Vec3) (threshold : ℚ)
  | rollbackOp (n : ℕ)
  | rollforwardOp (n : ℕ)
  | computeOp (est : FMEstimate) (kp1 kp2 : List Vec3) (method : String)

/-- Interpret one operation on a `FundamentalMatrix` state.  A `compute`
call that raises or returns early still leaves the object in the state the
embedding reports, so only the state component is kept. -/
def FundamentalMatrix.applyOp (K : Kernel) (s : FMState) : FMOp → FMState
  | .refine normv t => FundamentalMatrix.refine_matches normv s t
  | .rollbackOp n => FundamentalMatrix.rollback s n
  | .rollforwardOp n => FundamentalMatrix.rollforward s n
  | .computeOp est kp1 kp2 method =>
      (FundamentalMatrix.compute K est s kp1 kp2 method).1

/-- Interpret a sequence of operations, left to right. -/
def FundamentalMatrix.applyOps (K : Kernel) (s : FMState) (ops : List FMOp) :
    FMState :=
  ops.foldl (FundamentalMatrix.applyOp K) s

/-- The history invariant of a versioned matrix: the deque is nonempty, never
longer than its `maxlen` of 10, and the cursor addresses a valid entry. -/
def HistoryInv {α : Type} (s : TransformationMatrix α) : Prop :=
  1 ≤ s.actionStack.length ∧ s.actionStack.length ≤ 10 ∧
    s.currentActionStack < s.actionStack.length

instance {α : Type} (s : TransformationMatrix α) : Decidable (HistoryInv s) := by
  unfold HistoryInv
  infer_instance

/-- A sequence of `refine_matches` calls with the given thresholds. -/
def FundamentalMatrix.applyRefineList (normv : Vec3 → Vec3) (s : FMState) :
    List ℚ → FMState
  | [] => s
  | t :: ts =>
      FundamentalMatrix.applyRefineList normv
        (FundamentalMatrix.refine_matches normv s t) ts

/-- Pointwise implication of boolean masks: every point the first mask admits
is admitted by the second. -/
def maskSub (m1 m2 : List Bool) : Bool :=
  (m1.zip m2).all (fun p => !p.1 || p.2)

/-- The zero 3x4 matrix, used by concrete kernels. -/
def zero34 : Mat34 := Matrix.of fun _ _ => 0

/-- A concrete external kernel for evaluating the embedding on concrete
inputs. -/
def K0 : Kernel :=
  { svdVals := fun _ => (1, 1, 1)
    svdEnforce := fun _ => 0
    normv := id
    estimated_camera_from_f := fun _ => zero34
    least_squares_camera := fun _ _ _ => zero34 }

/-- The homogeneous point (1, 0, 0). -/
def pt100 : Vec3 := fun i => if i = 0 then 1 else 0

/-- The homogeneous point (0, 1, 0). -/
def pt010 : Vec3 := fun i => if i = 1 then 1 else 0

/-- A concrete estimator result: `F` is the identity (rank 3), a single
assignable matrix, with both correspondences marked inliers. -/
def estId : FMEstimate := ⟨1, true, some [true, true]⟩

/-- A concrete `FundamentalMatrix.compute` run with `method='ransac'` on two
correspondences, starting from a freshly constructed object. -/
def exRansac : FMState × FMOutcome :=
  FundamentalMatrix.compute K0 estId (TransformationMatrix.new Vec3 1 2)
    [pt100, pt010] [pt010, pt100] "ransac"

/-- A concrete `FundamentalMatrix.compute` run with `method='mle'` on two
correspondences (so only 2 < 9 inliers are available for refinement). -/
def exMle : FMState × FMOutcome :=
  FundamentalMatrix.compute K0 estId (TransformationMatrix.new Vec3 1 2)
    [pt100, pt010] [pt010, pt100] "mle"

/-- A concrete post-`compute` state whose two correspondences have epipolar
errors 0 and 1 under the identity matrix. -/
def exC2base : FMState :=
  (FundamentalMatrix.compute K0 estId (TransformationMatrix.new Vec3 1 2)
    [pt100, pt100] [pt010, pt100] "ransac").1

/-- `exC2base` after `refine_matches(1/2)`: the live mask becomes
`[true, false]` while the history snapshot keeps the all-true mask. -/
def exC2refined : FMState :=
  FundamentalMatrix.refine_matches id exC2base (1 / 2)

/-- A concrete `Homography` state carrying previously attached
correspondence data. -/
def exH : HState :=
  { TransformationMatrix.new (ℚ × ℚ) 1 1 with x1 := [(0, 0)], x2 := [(0, 0)] }

/-- `Homography.compute` on `exH` with an unrecognized method string. -/
def exHres : HState × HOutcome :=
  Homography.compute ⟨1, some [true]⟩ exH [(1, 1)] [(2, 2)] "foo"

/- ------------------------------------------------------------------ -/
/- Helper lemmas shared by the claim theorems.                         -/
/- ------------------------------------------------------------------ -/

theorem dequeAppend_length (st : List StatePackage) (p : StatePackage) :
    (dequeAppend st p).length = min (st.length + 1) 10 := by
  by_cases h : 10 < st.length + 1 <;>
    simp [dequeAppend, h] <;> omega

theorem dequeAppend_pos (st : List StatePackage) (p : StatePackage) :
    1 ≤ (dequeAppend st p).length := by
  rw [dequeAppend_length]
  omega

theorem dequeAppend_le_ten (st : List StatePackage) (p : StatePackage) :
    (dequeAppend st p).length ≤ 10 := by
  rw [dequeAppend_length]
  omega

theorem dequeAppend_eq_append (st : List StatePackage) (p : StatePackage) :
    ∃ st', dequeAppend st p = st' ++ [p] := by
  by_cases h : 10 < st.length + 1
  · refine ⟨st.drop ((st ++ [p]).length - 10), ?_⟩
    have h' : 10 < (st ++ [p]).length := by simp; omega
    simp only [dequeAppend]
    rw [if_pos h']
    rw [List.drop_append_of_le_length (by simp)]
  · refine ⟨st, ?_⟩
    have h' : ¬10 < (st ++ [p]).length := by simp; omega
    simp only [dequeAppend]
    rw [if_neg h']

theorem dequeAppend_getD_last (st : List StatePackage) (p d : StatePackage) :
    (dequeAppend st p).getD ((dequeAppend st p).length - 1) d = p := by
  obtain ⟨st', h⟩ := dequeAppend_eq_append st p
  rw [h]
  have hl : (st' ++ [p]).length - 1 = st'.length := by simp
  rw [hl]
  simp [List.getD_append_right]

theorem refine_matches_actionStack (normv : Vec3 → Vec3) (s : FMState)
    (t : ℚ) :
    (FundamentalMatrix.refine_matches normv s t).actionStack =
      dequeAppend s.actionStack ⟨s.matrix, s.mask⟩ := rfl

theorem refine_matches_cursor (normv : Vec3 → Vec3) (s : FMState) (t : ℚ) :
    (FundamentalMatrix.refine_matches normv s t).currentActionStack =
      (dequeAppend s.actionStack ⟨s.matrix, s.mask⟩).length - 1 := rfl

theorem refine_matches_matrix (normv : Vec3 → Vec3) (s : FMState) (t : ℚ) :
    (FundamentalMatrix.refine_matches normv s t).matrix = s.matrix := rfl

theorem refine_matches_x1 (normv : Vec3 → Vec3) (s : FMState) (t : ℚ) :
    (FundamentalMatrix.refine_matches normv s t).x1 = s.x1 := rfl

theorem refine_matches_x2 (normv : Vec3 → Vec3) (s : FMState) (t : ℚ) :
    (FundamentalMatrix.refine_matches normv s t).x2 = s.x2 := rfl

theorem refine_matches_mask (normv : Vec3 → Vec3) (s : FMState) (t : ℚ) :
    (FundamentalMatrix.refine_matches normv s t).mask =
      some ((FundamentalMatrix.compute_error normv s.matrix s.x1 s.x2).map
        (fun e => decide (e ≤ t))) := rfl

theorem compute_preserves_stack (K : Kernel) (est : FMEstimate) (s : FMState)
    (kp1 kp2 : List Vec3) (method : String) :
    (FundamentalMatrix.compute K est s kp1 kp2 method).1.actionStack =
        s.actionStack ∧
      (FundamentalMatrix.compute K est s kp1 kp2 method).1.currentActionStack =
        s.currentActionStack := by
  cases hm : FundamentalMatrix.methodFlag method <;>
    cases hmask : est.mask <;>
      simp only [FundamentalMatrix.compute, hm, hmask] <;>
        repeat' split <;> simp_all
  all_goals exact ⟨trivial, trivial⟩

theorem fm_rollback_eq (s : FMState) (n : ℕ) :
    FundamentalMatrix.rollback s n =
      { s with
          currentActionStack := s.currentActionStack - n
          matrix := (s.actionStack.getD (s.currentActionStack - n)
            ⟨s.matrix, none⟩).arr
          mask := (s.actionStack.getD (s.currentActionStack - n)
            ⟨s.matrix, none⟩).mask
          condCache := none
          detCache := none
          errCache := none } := rfl

theorem fm_rollforward_eq (s : FMState) (n : ℕ) :
    FundamentalMatrix.rollforward s n =
      { s with
          currentActionStack :=
            if s.actionStack.length - 1 < s.currentActionStack + n then
              s.actionStack.length - 1
            else s.currentActionStack + n
          matrix := (s.actionStack.getD
            (if s.actionStack.length - 1 < s.currentActionStack + n then
              s.actionStack.length - 1
             else s.currentActionStack + n) ⟨s.matrix, none⟩).arr
          mask := (s.actionStack.getD
            (if s.actionStack.length - 1 < s.currentActionStack + n then
              s.actionStack.length - 1
             else s.currentActionStack + n) ⟨s.matrix, none⟩).mask
          condCache := none
          detCache := none
          errCache := none } := rfl

theorem roundtrip_restores_cursor_entry (s : FMState) (k : ℕ)
    (hk : k ≤ s.currentActionStack)
    (hlen : s.currentActionStack < s.actionStack.length) :
    FundamentalMatrix.rollforward (FundamentalMatrix.rollback s k) k =
      { s with
          matrix := (s.actionStack.getD s.currentActionStack
            ⟨s.matrix, none⟩).arr
          mask := (s.actionStack.getD s.currentActionStack
            ⟨s.matrix, none⟩).mask
          condCache := none
          detCache := none
          errCache := none } := by
  rw [fm_rollback_eq, fm_rollforward_eq]
  have hc : ¬(s.actionStack.length - 1 < s.currentActionStack - k + k) := by
    omega
  simp only [hc, if_false]
  have hidx : s.currentActionStack - k + k = s.currentActionStack := by omega
  rw [hidx]
  rw [List.getD_eq_getElem _ _ hlen, List.getD_eq_getElem _ _ hlen]

theorem maskSub_map_le (l : List ℚ) (t1 t2 : ℚ) (h : t1 ≤ t2) :
    maskSub (l.map fun e => decide (e ≤ t1))
      (l.map fun e => decide (e ≤ t2)) = true := by
  unfold maskSub
  rw [List.zip_map']
  rw [List.all_eq_true]
  intro p hp
  obtain ⟨e, _, rfl⟩ := List.mem_map.mp hp
  by_cases he : e ≤ t1
  · simp [he, le_trans he h]
  · simp [he]

theorem sum_map_add_pairs (l : List (ℚ × ℚ)) (f g : ℚ × ℚ → ℚ) :
    (l.map fun r => f r + g r).sum = (l.map f).sum + (l.map g).sum := by
  induction l with
  | nil => simp
  | cons a l ih => simp [ih]; ring

theorem listMean_map_add_pairs (l : List (ℚ × ℚ)) (f g : ℚ × ℚ → ℚ) :
    listMean (l.map fun r => f r + g r) =
      listMean (l.map f) + listMean (l.map g) := by
  unfold listMean
  simp only [List.length_map]
  rw [sum_map_add_pairs, add_div]

theorem listMean_sq_nonneg (l : List (ℚ × ℚ)) (f : ℚ × ℚ → ℚ) :
    0 ≤ listMean (l.map fun r => f r ^ 2) := by
  unfold listMean
  refine div_nonneg (List.sum_nonneg ?_) (Nat.cast_nonneg _)
  intro x hx
  obtain ⟨r, _, rfl⟩ := List.mem_map.mp hx
  positivity

theorem listMean_sq_add_nonneg (l : List (ℚ × ℚ)) :
    0 ≤ listMean (l.map fun r => r.1 ^ 2 + r.2 ^ 2) := by
  unfold listMean
  refine div_nonneg (List.sum_nonneg ?_) (Nat.cast_nonneg _)
  intro x hx
  obtain ⟨r, _, rfl⟩ := List.mem_map.mp hx
  positivity

/- ------------------------------------------------------------------ -/
/- Claim theorems.                                                     -/
/- ------------------------------------------------------------------ -/

/-- C10: the history snapshot created at construction stores a `None` mask
rather than the all-true mask the constructor installs, so on a freshly
constructed matrix (cursor 0, single history entry) `rollback(n)` for any
`n ≥ 1` leaves the matrix value unchanged but replaces the all-true inlier
mask with the empty (`None`) mask. -/
theorem initial_rollback_empties_mask (M : Mat) (idx n : ℕ) (_h : 1 ≤ n) :
    (TransformationMatrix.new Vec3 M idx).actionStack = [⟨M, none⟩] ∧
      (TransformationMatrix.new Vec3 M idx).mask =
        some (List.replicate idx true) ∧
      (TransformationMatrix.new Vec3 M idx).currentActionStack = 0 ∧
      (FundamentalMatrix.rollback (TransformationMatrix.new Vec3 M idx) n).matrix
        = M ∧
      (FundamentalMatrix.rollback (TransformationMatrix.new Vec3 M idx) n).mask
        = none := by
  refine ⟨rfl, rfl, rfl, ?_, ?_⟩ <;>
    simp [FundamentalMatrix.rollback, TransformationMatrix.rollback,
      TransformationMatrix.new, FundamentalMatrix.clean_attrs, hasCleanAttrs]

/-- Witness for C10 at a concrete input. -/
theorem initial_rollback_empties_mask_witness :
    1 ≤ 1 ∧
      ((TransformationMatrix.new Vec3 1 2).actionStack = [⟨1, none⟩] ∧
        (TransformationMatrix.new Vec3 1 2).mask =
          some (List.replicate 2 true) ∧
        (TransformationMatrix.new Vec3 1 2).currentActionStack = 0 ∧
        (FundamentalMatrix.rollback (TransformationMatrix.new Vec3 1 2) 1).matrix
          = 1 ∧
        (FundamentalMatrix.rollback (TransformationMatrix.new Vec3 1 2) 1).mask
          = none) :=
  ⟨by decide, initial_rollback_empties_mask 1 2 1 (by decide)⟩

/-- C9: on a `Homography` instance both `rollback` and `rollforward` raise
`AttributeError` at the `self._clean_attrs()` call (the helper is defined
only on `FundamentalMatrix`), and the failure happens after the cursor, the
matrix contents and the mask have already been updated, so observers are
never notified. -/
theorem homography_rollback_attribute_error (s : HState) (n : ℕ) :
    TransformationMatrix.rollback .homography s n =
        ⟨{ s with
            currentActionStack := s.currentActionStack - n
            matrix := (s.actionStack.getD (s.currentActionStack - n)
              ⟨s.matrix, none⟩).arr
            mask := (s.actionStack.getD (s.currentActionStack - n)
              ⟨s.matrix, none⟩).mask },
          true, false⟩ ∧
      TransformationMatrix.rollforward .homography s n =
        ⟨{ s with
            currentActionStack :=
              if s.actionStack.length - 1 < s.currentActionStack + n then
                s.actionStack.length - 1
              else s.currentActionStack + n
            matrix := (s.actionStack.getD
              (if s.actionStack.length - 1 < s.currentActionStack + n then
                s.actionStack.length - 1
               else s.currentActionStack + n) ⟨s.matrix, none⟩).arr
            mask := (s.actionStack.getD
              (if s.actionStack.length - 1 < s.currentActionStack + n then
                s.actionStack.length - 1
               else s.currentActionStack + n) ⟨s.matrix, none⟩).mask },
          true, false⟩ := by
  constructor <;> rfl

/-- C6: refining matches at threshold `t1` and then at a larger threshold
`t2` yields a mask that is a pointwise superset of the mask from the `t1`
refinement alone, because `refine_matches` recomputes the error over all
attached correspondences (the matrix and correspondences are unchanged by
the first call) and sets `mask = error <= threshold`. -/
theorem refine_matches_mask_monotone (normv : Vec3 → Vec3) (s : FMState)
    (t1 t2 : ℚ) (h : t1 < t2) :
    maskSub ((FundamentalMatrix.refine_matches normv s t1).mask.getD [])
      ((FundamentalMatrix.refine_matches normv
        (FundamentalMatrix.refine_matches normv s t1) t2).mask.getD [])
      = true := by
  rw [refine_matches_mask, refine_matches_mask]
  rw [refine_matches_matrix, refine_matches_x1, refine_matches_x2]
  simp only [Option.getD_some]
  exact maskSub_map_le _ t1 t2 (le_of_lt h)

/-- Witness for C6 at a concrete input. -/
theorem refine_matches_mask_monotone_witness :
    (0 : ℚ) < 1 ∧
      maskSub
        ((FundamentalMatrix.refine_matches id
          (TransformationMatrix.new Vec3 1 2) 0).mask.getD [])
        ((FundamentalMatrix.refine_matches id
          (FundamentalMatrix.refine_matches id
            (TransformationMatrix.new Vec3 1 2) 0) 1).mask.getD [])
        = true :=
  ⟨by norm_num,
    refine_matches_mask_monotone id (TransformationMatrix.new Vec3 1 2) 0 1
      (by norm_num)⟩

/-- C2 counterexample: after `compute` and one `refine_matches`, a
`rollback(1)` followed by `rollforward(1)` (1 is within bounds: the cursor is
at 1) does not restore the live mask the object held immediately before the
rollback — the pre-refine snapshot mask comes back instead. -/
theorem rollback_rollforward_mask_mismatch :
    1 ≤ exC2refined.currentActionStack ∧
      exC2refined.currentActionStack < exC2refined.actionStack.length ∧
      (FundamentalMatrix.rollforward
        (FundamentalMatrix.rollback exC2refined 1) 1).matrix =
          exC2refined.matrix ∧
      (FundamentalMatrix.rollforward
        (FundamentalMatrix.rollback exC2refined 1) 1).mask ≠
          exC2refined.mask := by
  refine ⟨by decide, by decide, by decide, by decide⟩

/-- C2 amended: `rollback(k)` then `rollforward(k)` (k within bounds)
restores the cursor to its pre-rollback position and restores the live
matrix and mask from the history snapshot at that cursor — the snapshot of
the state *before* the last committed mutation, not the live state before
the rollback.  Immediately after a `refine_matches`, the restored matrix
does equal the pre-rollback matrix, but the restored mask is the pre-refine
snapshot mask. -/
theorem rollback_rollforward_restores_snapshot :
    (∀ (s : FMState) (k : ℕ),
      k ≤ s.currentActionStack →
      s.currentActionStack < s.actionStack.length →
      (FundamentalMatrix.rollforward
          (FundamentalMatrix.rollback s k) k).currentActionStack =
        s.currentActionStack ∧
      (FundamentalMatrix.rollforward
          (FundamentalMatrix.rollback s k) k).matrix =
        (s.actionStack.getD s.currentActionStack ⟨s.matrix, none⟩).arr ∧
      (FundamentalMatrix.rollforward
          (FundamentalMatrix.rollback s k) k).mask =
        (s.actionStack.getD s.currentActionStack ⟨s.matrix, none⟩).mask) ∧
    (∀ (normv : Vec3 → Vec3) (s : FMState) (t : ℚ) (k : ℕ),
      k ≤ (FundamentalMatrix.refine_matches normv s t).currentActionStack →
      (FundamentalMatrix.rollforward
          (FundamentalMatrix.rollback
            (FundamentalMatrix.refine_matches normv s t) k) k).matrix =
        s.matrix ∧
      (FundamentalMatrix.rollforward
          (FundamentalMatrix.rollback
            (FundamentalMatrix.refine_matches normv s t) k) k).mask =
        s.mask) := by
  constructor
  · intro s k hk hlen
    rw [roundtrip_restores_cursor_entry s k hk hlen]
    exact ⟨rfl, rfl, rfl⟩
  · intro normv s t k hk
    have hlen : (FundamentalMatrix.refine_matches normv s t).currentActionStack
        < (FundamentalMatrix.refine_matches normv s t).actionStack.length := by
      rw [refine_matches_cursor, refine_matches_actionStack]
      have := dequeAppend_pos s.actionStack ⟨s.matrix, s.mask⟩
      omega
    rw [roundtrip_restores_cursor_entry _ k hk hlen]
    constructor
    · show ((FundamentalMatrix.refine_matches normv s t).actionStack.getD
        (FundamentalMatrix.refine_matches normv s t).currentActionStack
        ⟨(FundamentalMatrix.refine_matches normv s t).matrix, none⟩).arr =
          s.matrix
      rw [refine_matches_actionStack, refine_matches_cursor,
        dequeAppend_getD_last]
    · show ((FundamentalMatrix.refine_matches normv s t).actionStack.getD
        (FundamentalMatrix.refine_matches normv s t).currentActionStack
        ⟨(FundamentalMatrix.refine_matches normv s t).matrix, none⟩).mask =
          s.mask
      rw [refine_matches_actionStack, refine_matches_cursor,
        dequeAppend_getD_last]

/-- Witness for the amended C2 at a concrete input. -/
theorem rollback_rollforward_restores_snapshot_witness :
    (1 ≤ exC2refined.currentActionStack ∧
      exC2refined.currentActionStack < exC2refined.actionStack.length ∧
      (FundamentalMatrix.rollforward
          (FundamentalMatrix.rollback exC2refined 1) 1).currentActionStack =
        exC2refined.currentActionStack) ∧
    (1 ≤ (FundamentalMatrix.refine_matches id exC2base
        (1 / 2)).currentActionStack ∧
      (FundamentalMatrix.rollforward
          (FundamentalMatrix.rollback
            (FundamentalMatrix.refine_matches id exC2base (1 / 2)) 1) 1).mask =
        exC2base.mask) :=
  ⟨⟨by decide, by decide,
    (rollback_rollforward_restores_snapshot.1 exC2refined 1 (by decide)
      (by decide)).1⟩,
   ⟨by decide,
    (rollback_rollforward_restores_snapshot.2 id exC2base (1 / 2) 1
      (by decide)).2⟩⟩

/-- C4 counterexample: `Homography.compute` with the unrecognized method
string `"foo"` raises `InvalidMethodError` but has already overwritten the
attached correspondence data `x1`/`x2` with its inputs, so the object does
not remain in its prior state. -/
theorem invalid_method_mutates_homography_correspondences :
    exHres.2 = .invalidMethod ∧
      exHres.1.x1 ≠ exH.x1 ∧
      exHres.1.x1 = [(1, 1)] := by
  refine ⟨by decide, by decide, by decide⟩

/-- C4 amended: an unrecognized method string makes `compute` fail with
`InvalidMethodError` (a `ValueError` in the source) and no history entry is
committed; `FundamentalMatrix.compute` leaves the object completely
unchanged, while `Homography.compute` leaves the matrix, mask and history
unchanged but has already assigned `x1` and `x2` from its arguments before
validating the method. -/
theorem invalid_method_atomicity :
    (∀ (K : Kernel) (est : FMEstimate) (s : FMState) (kp1 kp2 : List Vec3)
      (method : String),
      method ≠ "mle" → method ≠ "ransac" → method ≠ "lmeds" →
      method ≠ "normal" → method ≠ "8point" →
      FundamentalMatrix.compute K est s kp1 kp2 method =
        (s, .invalidMethod)) ∧
    (∀ (est : HEstimate) (s : HState) (kp1 kp2 : List (ℚ × ℚ))
      (method : String),
      method ≠ "ransac" → method ≠ "lmeds" → method ≠ "normal" →
      Homography.compute est s kp1 kp2 method =
        ({ s with x1 := kp1, x2 := kp2 }, .invalidMethod)) := by
  constructor
  · intro K est s kp1 kp2 method h1 h2 h3 h4 h5
    simp [FundamentalMatrix.compute, FundamentalMatrix.methodFlag,
      h1, h2, h3, h4, h5]
  · intro est s kp1 kp2 method h1 h2 h3
    simp [Homography.compute, Homography.methodFlag, h1, h2, h3]

/-- Witness for the amended C4 at a concrete input. -/
theorem invalid_method_atomicity_witness :
    FundamentalMatrix.compute K0 estId (TransformationMatrix.new Vec3 1 2)
        [pt100] [pt010] "foo" =
      (TransformationMatrix.new Vec3 1 2, .invalidMethod) ∧
    Homography.compute ⟨1, some [true]⟩ exH [(1, 1)] [(2, 2)] "foo" =
      ({ exH with x1 := [(1, 1)], x2 := [(2, 2)] }, .invalidMethod) :=
  ⟨invalid_method_atomicity.1 K0 estId (TransformationMatrix.new Vec3 1 2)
      [pt100] [pt010] "foo" (by decide) (by decide) (by decide) (by decide)
      (by decide),
   invalid_method_atomicity.2 ⟨1, some [true]⟩ exH [(1, 1)] [(2, 2)] "foo"
      (by decide) (by decide) (by decide)⟩

/-- C7: the `condition` property computes the ratio of the largest to the
second-largest singular value (the SVD returns them in descending order) and
caches it; while a nonzero value is cached, reads return it without
recomputation; `refine_matches`, `rollback` and `rollforward` all clear the
cache, forcing recomputation on the next read. -/
theorem condition_cached_and_invalidated :
    (∀ (K : Kernel) (s : FMState), s.condCache = none →
      TransformationMatrix.condition K s =
        ((K.svdVals s.matrix).1 / (K.svdVals s.matrix).2.1,
          { s with
              condCache :=
                some ((K.svdVals s.matrix).1 /
                  (K.svdVals s.matrix).2.1) })) ∧
    (∀ (K : Kernel) (s : FMState) (c : ℚ), s.condCache = some c → c ≠ 0 →
      TransformationMatrix.condition K s = (c, s)) ∧
    (∀ (normv : Vec3 → Vec3) (s : FMState) (t : ℚ),
      (FundamentalMatrix.refine_matches normv s t).condCache = none) ∧
    (∀ (s : FMState) (n : ℕ),
      (FundamentalMatrix.rollback s n).condCache = none) ∧
    (∀ (s : FMState) (n : ℕ),
      (FundamentalMatrix.rollforward s n).condCache = none) := by
  refine ⟨?_, ?_, ?_, ?_, ?_⟩
  · intro K s h
    simp [TransformationMatrix.condition, h]
  · intro K s c h hc
    simp [TransformationMatrix.condition, h, hc]
  · intro normv s t
    rfl
  · intro s n
    rfl
  · intro s n
    rfl

/-- Witness for C7 at a concrete input. -/
theorem condition_cached_and_invalidated_witness :
    ((TransformationMatrix.new Vec3 1 2).condCache = none ∧
      TransformationMatrix.condition K0 (TransformationMatrix.new Vec3 1 2) =
        (1, { TransformationMatrix.new Vec3 1 2 with condCache := some 1 })) ∧
    (({ TransformationMatrix.new Vec3 1 2 with
        condCache := some 5 } : FMState).condCache = some 5 ∧ (5 : ℚ) ≠ 0 ∧
      TransformationMatrix.condition K0
          { TransformationMatrix.new Vec3 1 2 with condCache := some 5 } =
        (5, { TransformationMatrix.new Vec3 1 2 with condCache := some 5 })) :=
  ⟨⟨by decide,
    by
      have h := condition_cached_and_invalidated.1 K0
        (TransformationMatrix.new Vec3 1 2) rfl
      exact h.trans (by decide)⟩,
   ⟨by decide, by norm_num,
    condition_cached_and_invalidated.2.1 K0
      { TransformationMatrix.new Vec3 1 2 with condCache := some 5 } 5 rfl
      (by norm_num)⟩⟩

/-- C1: evaluated at a concrete failing input.  With `method='ransac'` and
the external estimator returning the rank-3 identity matrix with a valid
mask, `compute` returns normally yet the stored matrix is the raw estimate
of rank 3: `_enforce_singularity_constraint` runs before `self[:] = F`, so
it rewrites the stale pre-compute matrix and is then overwritten by the
unenforced `F`. -/
theorem compute_stores_unenforced_F :
    exRansac.2 = .ok ∧
      exRansac.1.matrix = estId.F ∧
      rank3 exRansac.1.matrix = 3 ∧
      rank3 (TransformationMatrix.new Vec3 1 2).matrix = 3 := by
  refine ⟨by decide, by decide, by decide, by decide⟩

/-- C5: evaluated at a concrete failing input.  With `method='mle'` and only
2 < 9 inlying correspondences, the MLE refinement aborts with the
insufficient-correspondences warning and `compute` as a whole returns
normally (the correspondences and mask are attached), but the matrix the
object keeps is the raw linear estimate of rank 3, not the rank-2-enforced
one — the enforcement-before-assignment slip of C1. -/
theorem mle_insufficient_keeps_raw_estimate :
    exMle.2 = .insufficientMLE ∧
      exMle.1.matrix = estId.F ∧
      rank3 exMle.1.matrix = 3 ∧
      exMle.1.x1 = [pt100, pt010] ∧
      exMle.1.mask = some [true, true] := by
  refine ⟨by decide, by decide, by decide, by decide, by decide⟩

/-- C8: for any homography, correspondence lists, index and mask, the
aggregate statistics of `Homography.compute_error` satisfy
`total_rms^2 = x_rms^2 + y_rms^2`: the mean of `x_res^2 + y_res^2` splits
into the sum of the two means. -/
theorem homography_rms_identity (H : Mat) (a b : List (ℚ × ℚ)) (index : ℕ)
    (mask : Option (List Bool)) :
    Homography.total_rms H a b index mask ^ 2 =
      Homography.x_rms H a b index mask ^ 2 +
        Homography.y_rms H a b index mask ^ 2 := by
  unfold Homography.total_rms Homography.x_rms Homography.y_rms
  rw [Real.sq_sqrt (by exact_mod_cast listMean_sq_add_nonneg _),
    Real.sq_sqrt (by exact_mod_cast listMean_sq_nonneg _ _),
    Real.sq_sqrt (by exact_mod_cast listMean_sq_nonneg _ _)]
  rw [← Rat.cast_add]
  exact_mod_cast listMean_map_add_pairs
    (Homography.residualPairs H a b index mask)
    (fun r => r.1 ^ (2 : ℕ)) (fun r => r.2 ^ (2 : ℕ))

/-- Refining matches keeps the history invariant. -/
theorem refine_preserves_inv (normv : Vec3 → Vec3) (s : FMState) (t : ℚ)
    (_h : HistoryInv s) :
    HistoryInv (FundamentalMatrix.refine_matches normv s t) := by
  unfold HistoryInv
  rw [refine_matches_actionStack, refine_matches_cursor]
  have h1 := dequeAppend_pos s.actionStack ⟨s.matrix, s.mask⟩
  have h2 := dequeAppend_le_ten s.actionStack ⟨s.matrix, s.mask⟩
  omega

/-- Rolling back keeps the history invariant. -/
theorem fm_rollback_preserves_inv (s : FMState) (n : ℕ) (h : HistoryInv s) :
    HistoryInv (FundamentalMatrix.rollback s n) := by
  unfold HistoryInv at h ⊢
  rw [fm_rollback_eq]
  dsimp only
  omega

/-- Rolling forward keeps the history invariant. -/
theorem fm_rollforward_preserves_inv (s : FMState) (n : ℕ)
    (h : HistoryInv s) :
    HistoryInv (FundamentalMatrix.rollforward s n) := by
  unfold HistoryInv at h ⊢
  rw [fm_rollforward_eq]
  dsimp only
  split_ifs <;> omega

/-- `compute` never touches the history deque or the cursor, so it keeps the
history invariant. -/
theorem fm_compute_preserves_inv (K : Kernel) (est : FMEstimate)
    (s : FMState) (kp1 kp2 : List Vec3) (method : String)
    (h : HistoryInv s) :
    HistoryInv (FundamentalMatrix.compute K est s kp1 kp2 method).1 := by
  obtain ⟨h1, h2⟩ := compute_preserves_stack K est s kp1 kp2 method
  unfold HistoryInv at h ⊢
  rw [h1, h2]
  exact h

/-- Every public operation keeps the history invariant. -/
theorem applyOp_preserves_inv (K : Kernel) (s : FMState) (op : FMOp)
    (h : HistoryInv s) :
    HistoryInv (FundamentalMatrix.applyOp K s op) := by
  cases op with
  | refine normv t => exact refine_preserves_inv normv s t h
  | rollbackOp n => exact fm_rollback_preserves_inv s n h
  | rollforwardOp n => exact fm_rollforward_preserves_inv s n h
  | computeOp est kp1 kp2 method =>
      exact fm_compute_preserves_inv K est s kp1 kp2 method h

/-- Sequences of public operations keep the history invariant. -/
theorem applyOps_preserves_inv (K : Kernel) (s : FMState) (ops : List FMOp)
    (h : HistoryInv s) :
    HistoryInv (FundamentalMatrix.applyOps K s ops) := by
  induction ops generalizing s with
  | nil => exact h
  | cons op ops ih => exact ih _ (applyOp_preserves_inv K s op h)

/-- The history length after a sequence of `refine_matches` calls is the
unbounded length capped at the deque bound of 10. -/
theorem applyRefineList_length (normv : Vec3 → Vec3) (s : FMState)
    (ts : List ℚ) (h : s.actionStack.length ≤ 10) :
    (FundamentalMatrix.applyRefineList normv s ts).actionStack.length =
      min (s.actionStack.length + ts.length) 10 := by
  induction ts generalizing s with
  | nil =>
    simp only [FundamentalMatrix.applyRefineList, List.length_nil]
    omega
  | cons t ts ih =>
    simp only [FundamentalMatrix.applyRefineList]
    rw [ih _ (by rw [refine_matches_actionStack]
                 exact dequeAppend_le_ten _ _)]
    rw [refine_matches_actionStack, dequeAppend_length]
    simp only [List.length_cons]
    omega

/-- On a full deque, `refine_matches` evicts the oldest entry and appends
the new snapshot at the right. -/
theorem refine_evicts_oldest_when_full (normv : Vec3 → Vec3) (s : FMState)
    (t : ℚ) (h : s.actionStack.length = 10) :
    (FundamentalMatrix.refine_matches normv s t).actionStack =
      s.actionStack.tail ++ [⟨s.matrix, s.mask⟩] := by
  rw [refine_matches_actionStack]
  have h' :
      10 < (s.actionStack ++ [(⟨s.matrix, s.mask⟩ : StatePackage)]).length := by
    simp [h]
  simp only [dequeAppend]
  rw [if_pos h']
  rw [List.drop_append_of_le_length (by simp [h])]
  have h1 :
      (s.actionStack ++ [(⟨s.matrix, s.mask⟩ : StatePackage)]).length - 10
        = 1 := by
    simp [h]
  rw [h1, List.drop_one]

/-- On a deque below capacity, `refine_matches` appends the snapshot without
evicting. -/
theorem refine_appends_when_not_full (normv : Vec3 → Vec3) (s : FMState)
    (t : ℚ) (h : s.actionStack.length < 10) :
    (FundamentalMatrix.refine_matches normv s t).actionStack =
      s.actionStack ++ [⟨s.matrix, s.mask⟩] := by
  rw [refine_matches_actionStack]
  have h' :
      ¬10 < (s.actionStack ++ [(⟨s.matrix, s.mask⟩ : StatePackage)]).length := by
    simp
    omega
  simp only [dequeAppend]
  rw [if_neg h']

/-- C3: the history of a versioned matrix is bounded: a fresh object
satisfies the history invariant `1 <= len(history) <= 10` with
`cursor <= len - 1`, every sequence of public operations preserves it, a
sequence of more than 10 `refine_matches` mutations leaves exactly 10
entries, eviction is FIFO (on a full deque the oldest entry is dropped and
the new snapshot appended; below capacity entries are only appended), and a
`rollback` whose step count reaches past the earliest retained entry clamps
the cursor to index 0 instead of raising. -/
theorem history_bounded_and_clamped :
    (∀ (M : Mat) (idx : ℕ),
      HistoryInv (TransformationMatrix.new Vec3 M idx)) ∧
    (∀ (K : Kernel) (s : FMState) (ops : List FMOp), HistoryInv s →
      HistoryInv (FundamentalMatrix.applyOps K s ops)) ∧
    (∀ (normv : Vec3 → Vec3) (M : Mat) (idx : ℕ) (ts : List ℚ),
      10 < ts.length →
      (FundamentalMatrix.applyRefineList normv
        (TransformationMatrix.new Vec3 M idx) ts).actionStack.length = 10) ∧
    (∀ (normv : Vec3 → Vec3) (s : FMState) (t : ℚ),
      s.actionStack.length = 10 →
      (FundamentalMatrix.refine_matches normv s t).actionStack =
        s.actionStack.tail ++ [⟨s.matrix, s.mask⟩]) ∧
    (∀ (normv : Vec3 → Vec3) (s : FMState) (t : ℚ),
      s.actionStack.length < 10 →
      (FundamentalMatrix.refine_matches normv s t).actionStack =
        s.actionStack ++ [⟨s.matrix, s.mask⟩]) ∧
    (∀ (s : FMState) (n : ℕ), s.currentActionStack ≤ n →
      (TransformationMatrix.rollback .fundamentalMatrix s n).state.currentActionStack
          = 0 ∧
        (TransformationMatrix.rollback .fundamentalMatrix s n).attrError
          = false) := by
  refine ⟨?_, ?_, ?_, ?_, ?_, ?_⟩
  · intro M idx
    exact ⟨by simp [TransformationMatrix.new], by simp [TransformationMatrix.new],
      by simp [TransformationMatrix.new]⟩
  · intro K s ops h
    exact applyOps_preserves_inv K s ops h
  · intro normv M idx ts h
    rw [applyRefineList_length normv _ ts (by simp [TransformationMatrix.new])]
    have hlen :
        (TransformationMatrix.new Vec3 M idx).actionStack.length = 1 := rfl
    rw [hlen]
    omega
  · intro normv s t h
    exact refine_evicts_oldest_when_full normv s t h
  · intro normv s t h
    exact refine_appends_when_not_full normv s t h
  · intro s n h
    constructor
    · show s.currentActionStack - n = 0
      omega
    · rfl

/-- Witness for C3 at concrete inputs. -/
theorem history_bounded_and_clamped_witness :
    (HistoryInv (TransformationMatrix.new Vec3 1 2) ∧
      HistoryInv (FundamentalMatrix.applyOps K0
        (TransformationMatrix.new Vec3 1 2)
        [FMOp.refine id 1, FMOp.rollbackOp 1, FMOp.rollforwardOp 1])) ∧
    (10 < (List.replicate 11 (1 : ℚ)).length ∧
      (FundamentalMatrix.applyRefineList id
        (TransformationMatrix.new Vec3 1 2)
        (List.replicate 11 (1 : ℚ))).actionStack.length = 10) ∧
    ((TransformationMatrix.new Vec3 1 2).currentActionStack ≤ 3 ∧
      (TransformationMatrix.rollback .fundamentalMatrix
        (TransformationMatrix.new Vec3 1 2) 3).state.currentActionStack = 0) := by
  refine ⟨⟨by decide, ?_⟩, ⟨by decide, ?_⟩, ⟨by decide, ?_⟩⟩
  · exact history_bounded_and_clamped.2.1 K0 _ _ (by decide)
  · exact history_bounded_and_clamped.2.2.1 id 1 2
      (List.replicate 11 (1 : ℚ)) (by decide)
  · exact (history_bounded_and_clamped.2.2.2.2.2 _ 3 (by decide)).1
